import Mathlib

/-!
Shallow embedding of the batch image-generation pipeline in
`process_recipes.py`: the record store, the slug generator, the
classification/filter step of `main`, the per-job retry loop of
`process_recipe`, the JSON write-back `update_json_file`, and the
semaphore-bounded scheduler.  Strings are modelled as `List Char`,
JSON records as association lists of primitive values, and the
external services (generation API, HTTP fetch, transcoder, storage)
as per-attempt behaviour oracles.
-/

namespace RecipeGen

/-- JSON values as they occur in recipe record fields (primitive values;
record files are objects of primitives in this pipeline). -/
inductive Json where
  | null : Json
  | bool (b : Bool) : Json
  | num (n : Int) : Json
  | str (s : List Char) : Json
deriving DecidableEq, Repr

/-- Python truthiness of a JSON value (`if recipe.get(k):`). -/
def Json.truthy : Json → Bool
  | .null => false
  | .bool b => b
  | .num n => decide (n ≠ 0)
  | .str s => decide (s ≠ [])

/-- A parsed record file: an ordered association list of fields, as
produced by `json.load` (Python dicts preserve insertion order). -/
abbrev Rec : Type := List (String × Json)

/-- Field lookup, `recipe.get(k)` / `recipe[k]`. -/
def getKey (r : Rec) (k : String) : Option Json :=
  (r.find? (fun p => decide (p.1 = k))).map Prod.snd

/-- Dict assignment `recipe[k] = v`: replaces the entry in place when the
key is present (preserving field order), appends otherwise. -/
def setKey (r : Rec) (k : String) (v : Json) : Rec :=
  if (r.find? (fun p => decide (p.1 = k))).isSome then
    r.map (fun p => if p.1 = k then (k, v) else p)
  else
    r ++ [(k, v)]

/-- Truthiness of a field, `recipe.get(k)` used as a condition
(an absent key yields `None`, which is falsy). -/
def truthyField (r : Rec) (k : String) : Bool :=
  match getKey r k with
  | some v => v.truthy
  | none => false

/-! ### Slug generator (`slugify`, lines 42-52) -/

/-- ASCII whitespace, the characters matched by the regex class `\s`
on the titles this pipeline handles. -/
def isAsciiWs (c : Char) : Bool :=
  c = ' ' || c = '\t' || c = '\n' || c = '\x0d' || c = '\x0b' || c = '\x0c'

/-- Characters kept by `re.sub(r'[^a-z0-9\s-]', '', text)`. -/
def isSlugKeep (c : Char) : Bool :=
  ('a' ≤ c && c ≤ 'z') || ('0' ≤ c && c ≤ '9') || isAsciiWs c || c = '-'

/-- ASCII lower-casing of one character (`str.lower`). -/
def pyLowerChar (c : Char) : Char :=
  if 65 ≤ c.toNat && c.toNat ≤ 90 then Char.ofNat (c.toNat + 32) else c

/-- `text.replace('|', ' ')` (line 44). -/
def replacePipe (l : List Char) : List Char :=
  l.map (fun c => if c = '|' then ' ' else c)

/-- `text.lower()` (line 45). -/
def lowerStr (l : List Char) : List Char :=
  l.map pyLowerChar

/-- `re.sub(r'[^a-z0-9\s-]', '', text)` (line 46). -/
def removeBad (l : List Char) : List Char :=
  l.filter isSlugKeep

/-- Replaces every maximal run of characters satisfying `p` by the single
character `r`; the flag records whether the previous character was in a
run.  `subRunsAux p r false` is `re.sub(p+, r, ·)`. -/
def subRunsAux (p : Char → Bool) (r : Char) : Bool → List Char → List Char
  | _, [] => []
  | inRun, c :: rest =>
    if p c then
      (if inRun then [] else [r]) ++ subRunsAux p r true rest
    else
      c :: subRunsAux p r false rest

/-- `re.sub(r'[\s_]+', '-', text)` (line 47): each run of whitespace and
underscores becomes a single hyphen. -/
def collapseWsUnderscore (l : List Char) : List Char :=
  subRunsAux (fun c => isAsciiWs c || c = '_') '-' false l

/-- `re.sub(r'--+', '-', text)` (line 48): runs of two or more hyphens
become one; collapsing every hyphen run to a single hyphen is the same
function, since a run of length one is left as is either way. -/
def collapseHyphens (l : List Char) : List Char :=
  subRunsAux (fun c => c = '-') '-' false l

/-- `text.strip('-')` (line 49). -/
def stripHyphens (l : List Char) : List Char :=
  (((l.dropWhile (fun c => c = '-')).reverse.dropWhile (fun c => c = '-'))).reverse

/-- The normalization pipeline of `slugify` before the empty check:
lines 44-49 in source order. -/
def slugifyCore (text : List Char) : List Char :=
  stripHyphens (collapseHyphens (collapseWsUnderscore (removeBad (lowerStr (replacePipe text)))))

/-- `slugify` (lines 42-52).  The fresh token returned by `uuid.uuid4()`
for a degenerate input is passed in as the parameter `uuid` (its string
form is 36 characters, never empty). -/
def slugify (uuid : List Char) (text : List Char) : List Char :=
  let t := slugifyCore text
  if t = [] then uuid else t

/-! ### Classification and filtering (`main`, lines 147-164) -/

/-- Slug backfill (lines 155-159): when the record has no truthy `slug`
and a truthy string `title`, set `slug` to `slugify(title)`. -/
def backfillSlug (uuid : List Char) (r : Rec) : Rec :=
  if truthyField r "slug" then r
  else
    match getKey r "title" with
    | some (Json.str s) => if s = [] then r else setKey r "slug" (Json.str (slugify uuid s))
    | _ => r

/-- `recipe.get('title', 'Untitled Recipe')` (line 164). -/
def titleOrDefault (r : Rec) : Json :=
  (getKey r "title").getD (Json.str "Untitled Recipe".toList)

/-- `recipe.get('title', 'Untitled')` (line 56). -/
def titleForLog (r : Rec) : Json :=
  (getKey r "title").getD (Json.str "Untitled".toList)

/-- What the filter loop of `main` does with one parsed record
(lines 151-164). -/
inductive RecordDisposition where
  | completed : RecordDisposition
  | eligible (job : Rec) : RecordDisposition
  | skipped (title : Json) : RecordDisposition
deriving DecidableEq, Repr

/-- The body of the filter loop for one parsed record: already-processed
check (line 151), slug backfill (lines 155-159), eligibility test
(line 161). -/
def dispose (uuid : List Char) (r : Rec) : RecordDisposition :=
  if truthyField r "generated_image_url" then .completed
  else
    let r' := backfillSlug uuid r
    if truthyField r' "image_url" && truthyField r' "slug" then .eligible r'
    else .skipped (titleOrDefault r')

/-- The spec's three-way classification of a record (section 4.1 of the
design document). -/
inductive Classification where
  | Completed : Classification
  | Eligible : Classification
  | Skipped : Classification
deriving DecidableEq, Repr

/-- Classification as the spec words it: Completed when
`generated_image_url` is present and truthy; otherwise Skipped when,
after slug backfill, `image_url` or `slug` is still missing or empty;
otherwise Eligible. -/
def classify (uuid : List Char) (r : Rec) : Classification :=
  if truthyField r "generated_image_url" then .Completed
  else if truthyField (backfillSlug uuid r) "image_url" && truthyField (backfillSlug uuid r) "slug" then
    .Eligible
  else .Skipped

/-- Result of the filter pass of `main` over the record files:
the already-processed count, the jobs to run (in file order, with
backfilled slugs), and the titles of skipped records. -/
structure FilterResult where
  alreadyCount : Nat
  toProcess : List Rec
  missingTitles : List Json
deriving DecidableEq, Repr

/-- The filter loop of `main` (lines 147-164) over the parse results of
the record files (`none` is a file that failed to parse: warned about
and excluded).  `uuids i` is the fresh token available to `slugify` for
the file at index `i`. -/
def filterGo (uuids : Nat → List Char) : Nat → List (Option Rec) → FilterResult
  | _, [] => ⟨0, [], []⟩
  | i, none :: rest => filterGo uuids (i + 1) rest
  | i, some r :: rest =>
    let acc := filterGo uuids (i + 1) rest
    match dispose (uuids i) r with
    | .completed => ⟨acc.alreadyCount + 1, acc.toProcess, acc.missingTitles⟩
    | .eligible job => ⟨acc.alreadyCount, job :: acc.toProcess, acc.missingTitles⟩
    | .skipped t => ⟨acc.alreadyCount, acc.toProcess, t :: acc.missingTitles⟩

/-! ### Record write-back (`update_json_file`, lines 111-118) -/

/-- The record-level effect of `update_json_file`: re-load the on-disk
record, set `generated_image_url`, write the result back. -/
def update_json_file (url : List Char) (fileRec : Rec) : Rec :=
  setKey fileRec "generated_image_url" (Json.str url)

/-! ### Byte-level model of `update_json_file` (lines 111-117)

The file is opened `r+` (no truncation on open), `json.dump` streams the
new serialization over the old content starting at offset 0, and
`f.truncate()` cuts the file to the written length only afterwards. -/

/-- File content after the first `k` bytes of the new serialization have
been streamed over the old content (the file grows past the old end when
`k` exceeds it). -/
def overwriteFrom (old new : List Char) (k : Nat) : List Char :=
  new.take k ++ old.drop k

/-- File content after a complete write-back: the full serialization is
streamed and `f.truncate()` cuts the file at the current position. -/
def updateFileRun (old new : List Char) : List Char :=
  (overwriteFrom old new new.length).take new.length

/-! ### Generation result check (lines 75-78) -/

/-- Shape of the payload returned by the generation API, as the check on
line 75 distinguishes it: a falsy result (`not result`), a dict without
an `images` key, or a dict with an `images` list of image URLs (possibly
empty, `not result[..]`). -/
inductive FalPayload where
  | empty : FalPayload
  | noImagesKey : FalPayload
  | withImages (urls : List (List Char)) : FalPayload
deriving DecidableEq, Repr

/-- The error message raised on line 76. -/
def falErrMsg : List Char := "Fal.ai returned no images.".toList

/-- Lines 75-78: raise `ValueError("Fal.ai returned no images.")` when
the result is falsy, lacks `images`, or has an empty image list;
otherwise take `result['images'][0]['url']`. -/
def getGeneratedUrl : FalPayload → Except (List Char) (List Char)
  | .empty => .error falErrMsg
  | .noImagesKey => .error falErrMsg
  | .withImages [] => .error falErrMsg
  | .withImages (u :: _) => .ok u

/-! ### Per-job retry loop (`process_recipe`, lines 54-131) -/

/-- Python substring test `needle in haystack`. -/
def containsSub (needle : List Char) : List Char → Bool
  | [] => needle.isEmpty
  | c :: rest => needle.isPrefixOf (c :: rest) || containsSub needle rest

/-- The transient-error signature matched on line 124. -/
def TRANSIENT_SIG : List Char := "Resource temporarily unavailable".toList

/-- Line 124: `"Resource temporarily unavailable" in str(e)`. -/
def isTransientErr (msg : List Char) : Bool :=
  containsSub TRANSIENT_SIG msg

def MAX_RETRIES : Nat := 3

def RETRY_DELAY : Nat := 2

/-- The stage of the sequence at which an attempt raises. -/
inductive Stage where
  | generate : Stage
  | fetch : Stage
  | transcode : Stage
  | upload : Stage
  | writeBack : Stage
deriving DecidableEq, Repr

/-- What the external world does to one attempt of the stage sequence:
either every stage succeeds and the final public URL is `url`, or some
stage raises an exception carrying message `msg`. -/
inductive AttemptBehavior where
  | succeeds (url : List Char) : AttemptBehavior
  | failsAt (s : Stage) (msg : List Char) : AttemptBehavior
deriving DecidableEq, Repr

/-- Number of storage-upload calls a single attempt performs: the upload
(line 98) has run exactly when the attempt succeeds or fails at a later
stage. -/
def attemptUploads : AttemptBehavior → Nat
  | .succeeds _ => 1
  | .failsAt s _ => if s = Stage.writeBack then 1 else 0

/-- The console lines `process_recipe` prints, with their data. -/
inductive LogMsg where
  | processing (title : Json) : LogMsg
  | success (title : Json) : LogMsg
  | retrying (title : Json) (nextAttempt total waitTime : Nat) : LogMsg
  | errorProcessing (title : Json) (attempts : Nat) (msg : List Char) : LogMsg
deriving DecidableEq, Repr

/-- Observable trace of one job: its returned value (line 121 or 131),
the back-off sleeps it performed (line 127), the number of loop
iterations it ran, the URLs it wrote back to its record file, the number
of storage uploads it performed, and its log lines. -/
structure JobTrace where
  result : Option (List Char)
  sleeps : List Nat
  attemptsUsed : Nat
  writes : List (List Char)
  uploads : Nat
  log : List LogMsg
deriving DecidableEq, Repr

/-- The retry loop of `process_recipe` (lines 66-131), with `fuel` the
remaining iterations of `range(MAX_RETRIES)` and `attempt` the current
index.  An attempt that succeeds returns the URL (line 121); an attempt
that raises retries after `RETRY_DELAY * 2 ^ attempt` when the message
matches the transient signature and attempts remain (lines 124-128), and
otherwise returns `None` (line 131). -/
def attemptLoop (title : Json) (beh : Nat → AttemptBehavior) : Nat → Nat → JobTrace
  | 0, _ => ⟨none, [], 0, [], 0, []⟩
  | fuel + 1, attempt =>
    match beh attempt with
    | .succeeds u =>
      ⟨some u, [], 1, [u], 1, [.success title]⟩
    | .failsAt s msg =>
      if isTransientErr msg && decide (attempt < MAX_RETRIES - 1) then
        let wait := RETRY_DELAY * 2 ^ attempt
        let rest := attemptLoop title beh fuel (attempt + 1)
        ⟨rest.result, wait :: rest.sleeps, rest.attemptsUsed + 1,
         rest.writes, attemptUploads (.failsAt s msg) + rest.uploads,
         .retrying title (attempt + 2) MAX_RETRIES wait :: rest.log⟩
      else
        ⟨none, [], 1, [], attemptUploads (.failsAt s msg),
         [.errorProcessing title (attempt + 1) msg]⟩

/-- `process_recipe` for one record: prints the processing line (line 60)
and runs the retry loop from attempt 0. -/
def process_recipe (title : Json) (beh : Nat → AttemptBehavior) : JobTrace :=
  let tr := attemptLoop title beh MAX_RETRIES 0
  ⟨tr.result, tr.sleeps, tr.attemptsUsed, tr.writes, tr.uploads, .processing title :: tr.log⟩

/-- The attempt behaviour induced by a generation payload: when the
payload is malformed the attempt fails at the generate stage with the
raised message (line 76); otherwise the remaining stages decide the
outcome. -/
def attemptFromGen (p : FalPayload) (downstream : List Char → AttemptBehavior) : AttemptBehavior :=
  match getGeneratedUrl p with
  | .error m => .failsAt .generate m
  | .ok u => downstream u

/-- `asyncio.gather` over the job list (lines 183-184): results in task
order, one per job, each job a pure function of its own behaviour. -/
def runBatch (jobs : List (Json × (Nat → AttemptBehavior))) : List JobTrace :=
  jobs.map (fun j => process_recipe j.1 j.2)

/-! ### Bounded concurrency (lines 65, 177-184)

Cooperative-scheduler model of `asyncio.Semaphore(CONCURRENT_LIMIT)`:
each job acquires one slot before its first attempt (`async with
semaphore`, line 65), runs its whole retry lifetime holding it, and
releases it when it returns, successfully or not. -/

def CONCURRENT_LIMIT : Nat := 10

/-- Scheduler state: jobs (by index) still waiting to acquire a slot,
jobs currently holding a slot, and jobs that reached a terminal state. -/
structure SchedState where
  waiting : List Nat
  holding : List Nat
  done : List Nat
deriving DecidableEq, Repr

/-- One scheduler transition: a waiting job acquires a slot (enabled
only while fewer than `cap` slots are held), or a holding job reaches
its terminal return and releases its slot. -/
inductive SchedStep (cap : Nat) : SchedState → SchedState → Prop where
  | acquire (j : Nat) (s : SchedState) (hj : j ∈ s.waiting)
      (hcap : s.holding.length < cap) :
      SchedStep cap s ⟨s.waiting.erase j, j :: s.holding, s.done⟩
  | release (j : Nat) (s : SchedState) (hj : j ∈ s.holding) :
      SchedStep cap s ⟨s.waiting, s.holding.erase j, j :: s.done⟩

/-- States reachable from `init` by scheduler transitions. -/
inductive SchedReach (cap : Nat) (init : SchedState) : SchedState → Prop where
  | refl : SchedReach cap init init
  | step {s s' : SchedState} : SchedReach cap init s → SchedStep cap s s' →
      SchedReach cap init s'

/-- Initial scheduler state for a batch of `n` jobs: all waiting,
no slot held. -/
def schedInit (n : Nat) : SchedState :=
  ⟨List.range n, [], []⟩

/-! ### Upload path (lines 58, 96) -/

/-- The slug string of the in-memory record (`recipe.get('slug')`,
line 58; a truthy string for every eligible record). -/
def slugStr (r : Rec) : List Char :=
  match getKey r "slug" with
  | some (Json.str s) => s
  | _ => []

/-- `upload_path = f"..."`: the storage path is the in-memory slug
followed by the `.webp` extension (line 96). -/
def uploadPath (r : Rec) : List Char :=
  slugStr r ++ ".webp".toList

/-! ### Batch driver output (`main`, lines 168-193) -/

/-- The lines `main` itself prints, with their data: the pre-batch
report (lines 168-171), the no-new-recipes exit (line 174), and the
post-batch summary (lines 186-193). -/
inductive DriverMsg where
  | foundTotal (n : Nat) : DriverMsg
  | alreadyProcessed (n : Nat) : DriverMsg
  | missingCount (n : Nat) : DriverMsg
  | toProcessCount (n : Nat) : DriverMsg
  | noNew : DriverMsg
  | batchComplete : DriverMsg
  | successCount (n : Nat) : DriverMsg
  | skippedHeader : DriverMsg
  | skippedTitle (t : Json) : DriverMsg
deriving DecidableEq, Repr

/-- The pre-batch report (lines 168-171). -/
def preambleMsgs (total already missing toProc : Nat) : List DriverMsg :=
  [.foundTotal total, .alreadyProcessed already, .missingCount missing, .toProcessCount toProc]

/-- The post-batch summary (lines 186-193): completion banner, count of
newly succeeded jobs, and — only when some records were skipped — the
skipped-titles listing. -/
def summaryMsgs (succ : Nat) (missingTitles : List Json) : List DriverMsg :=
  [.batchComplete, .successCount succ] ++
    (if missingTitles.isEmpty then [] else .skippedHeader :: missingTitles.map .skippedTitle)

/-- `main` (lines 133-193): filter the parsed record files, print the
pre-batch report, exit early when nothing is eligible (lines 173-175),
otherwise run one job per eligible record and print the summary.
Returns the driver's own output and the per-job traces. -/
def mainRun (uuids : Nat → List Char) (files : List (Option Rec))
    (behs : Nat → Nat → AttemptBehavior) : List DriverMsg × List JobTrace :=
  let fr := filterGo uuids 0 files
  let pre := preambleMsgs files.length fr.alreadyCount fr.missingTitles.length fr.toProcess.length
  if fr.toProcess.isEmpty then (pre ++ [.noNew], [])
  else
    let traces := fr.toProcess.enum.map (fun p => process_recipe (titleForLog p.2) (behs p.1))
    (pre ++ summaryMsgs (traces.countP (fun t => t.result.isSome)) fr.missingTitles, traces)

/-! ## Lemmas about field lookup and assignment -/

theorem find?_map_setEntry (r : Rec) (k : String) (v : Json) :
    (r.map (fun p => if p.1 = k then (k, v) else p)).find? (fun p => decide (p.1 = k)) =
      (r.find? (fun p => decide (p.1 = k))).map (fun _ => (k, v)) := by
  induction r with
  | nil => rfl
  | cons a rest ih =>
    by_cases h : a.1 = k
    · simp [List.find?_cons, h, ih]
    · simp [List.find?_cons, h, ih]

theorem find?_map_setEntry_ne (r : Rec) (k k' : String) (v : Json) (hne : k' ≠ k) :
    (r.map (fun p => if p.1 = k then (k, v) else p)).find? (fun p => decide (p.1 = k')) =
      r.find? (fun p => decide (p.1 = k')) := by
  induction r with
  | nil => rfl
  | cons a rest ih =>
    by_cases h : a.1 = k
    · have h1 : ¬ ((k, v).1 = k') := fun hk => hne hk.symm
      have h2 : ¬ (a.1 = k') := by
        rw [h]
        exact fun hk => hne hk.symm
      simp only [List.map_cons, if_pos h, List.find?_cons, decide_eq_false h1,
        decide_eq_false h2]
      exact ih
    · by_cases h' : a.1 = k'
      · simp only [List.map_cons, if_neg h, List.find?_cons, decide_eq_true h']
      · simp only [List.map_cons, if_neg h, List.find?_cons, decide_eq_false h']
        exact ih

theorem getKey_setKey_self (r : Rec) (k : String) (v : Json) :
    getKey (setKey r k v) k = some v := by
  unfold getKey setKey
  by_cases hs : (r.find? (fun p => decide (p.1 = k))).isSome
  · rw [if_pos hs, find?_map_setEntry]
    obtain ⟨p, hp⟩ := Option.isSome_iff_exists.mp hs
    rw [hp]
    rfl
  · rw [if_neg hs, List.find?_append]
    rw [Option.not_isSome_iff_eq_none] at hs
    rw [hs]
    simp [List.find?_cons]

theorem getKey_setKey_of_ne (r : Rec) (k k' : String) (v : Json) (hne : k' ≠ k) :
    getKey (setKey r k v) k' = getKey r k' := by
  unfold getKey setKey
  by_cases hs : (r.find? (fun p => decide (p.1 = k))).isSome
  · rw [if_pos hs, find?_map_setEntry_ne r k k' v hne]
  · rw [if_neg hs, List.find?_append]
    have h1 : ([(k, v)].find? (fun p => decide (p.1 = k'))) = none := by
      have hk : ¬ ((k, v).1 = k') := fun hk => hne hk.symm
      simp [List.find?_cons, decide_eq_false hk]
    rw [h1, Option.or_none]

/-! ## C4: write-back round trip -/

/-- C4: writing the generated URL back to a record and re-loading yields
the original record with `generated_image_url` set to that URL: the
written field reads back as the URL, and every other field reads back
unchanged. -/
theorem update_roundtrip (r : Rec) (u : List Char) (k : String) :
    getKey (update_json_file u r) "generated_image_url" = some (Json.str u) ∧
    (k ≠ "generated_image_url" → getKey (update_json_file u r) k = getKey r k) := by
  constructor
  · exact getKey_setKey_self r "generated_image_url" (Json.str u)
  · intro hk
    exact getKey_setKey_of_ne r "generated_image_url" k (Json.str u) hk

/-- Witness for C4 at a concrete record, URL and frame field. -/
theorem update_roundtrip_witness :
    getKey (update_json_file ['U'] [("title", Json.str ['t'])]) "generated_image_url" =
      some (Json.str ['U']) ∧
    getKey (update_json_file ['U'] [("title", Json.str ['t'])]) "title" =
      getKey [("title", Json.str ['t'])] "title" :=
  ⟨(update_roundtrip [("title", Json.str ['t'])] ['U'] "title").1,
   (update_roundtrip [("title", Json.str ['t'])] ['U'] "title").2 (by decide)⟩

/-! ## C8: slug generator -/

/-- The normalization the claim describes, word for word: lower-casing,
removing characters outside the keep class, collapsing whitespace and
underscore runs to hyphens, collapsing repeated hyphens, trimming
hyphens — with no treatment of the vertical bar, which the claim does
not mention. -/
def slugifySpecC8 (uuid text : List Char) : List Char :=
  let t := stripHyphens (collapseHyphens (collapseWsUnderscore (removeBad (lowerStr text))))
  if t = [] then uuid else t

/-- C8 counterexample: on the input `a|b` the source first turns the
vertical bar into a space (line 44), yielding `a-b`, while the claim's
described normalization silently removes it, yielding `ab`; so `slugify`
does not return the result the claim describes on every input. -/
theorem slugify_spec_counterexample :
    slugify ['u'] "a|b".toList = "a-b".toList ∧
    slugifySpecC8 ['u'] "a|b".toList = "ab".toList ∧
    slugify ['u'] "a|b".toList ≠ slugifySpecC8 ['u'] "a|b".toList := by
  decide

/-- C8 amended: with the vertical-bar replacement added to the described
normalization (`slugifyCore`), `slugify` returns exactly that
normalization unless it is empty, in which case it returns the fresh
token; it never returns the empty string when the fresh token is
non-empty (a UUID string never is); and on any input whose normalized
form is non-empty the result is determined by the normalized form alone,
independent of the fresh token — so titles with equal normalizations
map to the same identifier. -/
theorem slugify_amended (u t : List Char) (hu : u ≠ []) :
    (slugifyCore t ≠ [] → slugify u t = slugifyCore t) ∧
    (slugifyCore t = [] → slugify u t = u) ∧
    slugify u t ≠ [] ∧
    (∀ u' t', slugifyCore t' = slugifyCore t → slugifyCore t ≠ [] →
      slugify u' t' = slugify u t) := by
  refine ⟨?_, ?_, ?_, ?_⟩
  · intro h
    simp [slugify, h]
  · intro h
    simp [slugify, h]
  · by_cases h : slugifyCore t = []
    · simp [slugify, h, hu]
    · simp [slugify, h]
  · intro u' t' hc hne
    simp [slugify, hc, hne]

/-- Witness for C8 at a concrete title with non-empty normalization. -/
theorem slugify_amended_witness :
    slugify ['u'] "Hello World".toList = slugifyCore "Hello World".toList ∧
    slugify ['u'] "Hello World".toList ≠ [] ∧
    slugify ['x'] "hello  world".toList = slugify ['u'] "Hello World".toList :=
  ⟨(slugify_amended ['u'] "Hello World".toList (by decide)).1 (by decide),
   (slugify_amended ['u'] "Hello World".toList (by decide)).2.2.1,
   (slugify_amended ['u'] "Hello World".toList (by decide)).2.2.2 ['x']
     "hello  world".toList (by decide) (by decide)⟩

/-! ## C2: retry with exponential backoff -/

theorem attemptLoop_attemptsUsed_le (title : Json) (beh : Nat → AttemptBehavior) :
    ∀ fuel a, (attemptLoop title beh fuel a).attemptsUsed ≤ fuel := by
  intro fuel
  induction fuel with
  | zero =>
    intro a
    simp [attemptLoop]
  | succ n ih =>
    intro a
    cases hb : beh a with
    | succeeds u =>
      simp [attemptLoop, hb]
    | failsAt s m =>
      simp only [attemptLoop, hb]
      split
      · have h := ih (a + 1)
        simp only []
        omega
      · simp

theorem attemptLoop_sleeps_spec (title : Json) (beh : Nat → AttemptBehavior) :
    ∀ fuel a, (attemptLoop title beh fuel a).sleeps =
      (List.range (attemptLoop title beh fuel a).sleeps.length).map
        (fun i => RETRY_DELAY * 2 ^ (a + i)) := by
  intro fuel
  induction fuel with
  | zero =>
    intro a
    simp [attemptLoop]
  | succ n ih =>
    intro a
    cases hb : beh a with
    | succeeds u =>
      simp [attemptLoop, hb]
    | failsAt s m =>
      simp only [attemptLoop, hb]
      split
      · simp only [List.length_cons, List.range_succ_eq_map, List.map_cons, List.map_map,
          List.cons.injEq]
        constructor
        · simp
        · have hfun : ((fun i => RETRY_DELAY * 2 ^ (a + i)) ∘ (· + 1)) =
              (fun i => RETRY_DELAY * 2 ^ ((a + 1) + i)) := by
            funext i
            have harith : a + (i + 1) = (a + 1) + i := by omega
            simp [Function.comp, harith]
          rw [hfun]
          exact ih (a + 1)
      · simp

/-- C2: the stage sequence is attempted at most `MAX_RETRIES = 3` times;
backoff sleeps are `RETRY_DELAY * 2 ^ attempt` for the consecutive
attempts that retried; a first attempt failing with a non-transient
error terminates the job at once as a failure with nothing written; if
every attempt raises, the job fails; two transient failures followed by
a success yield exactly one success with sleeps of 2 and 4 time units;
and a job's outcome never disturbs its siblings in the batch. -/
theorem retry_policy (title : Json) (beh : Nat → AttemptBehavior) (u : List Char)
    (pre post : List (Json × (Nat → AttemptBehavior)))
    (jA jB : Json × (Nat → AttemptBehavior)) :
    (process_recipe title beh).attemptsUsed ≤ MAX_RETRIES ∧
    ((process_recipe title beh).sleeps =
      (List.range (process_recipe title beh).sleeps.length).map
        (fun i => RETRY_DELAY * 2 ^ i)) ∧
    (∀ s m, beh 0 = .failsAt s m → isTransientErr m = false →
      (process_recipe title beh).result = none ∧
      (process_recipe title beh).attemptsUsed = 1 ∧
      (process_recipe title beh).writes = []) ∧
    ((∀ i, i < MAX_RETRIES → ∃ s m, beh i = .failsAt s m) →
      (process_recipe title beh).result = none) ∧
    (∀ s0 m0 s1 m1, beh 0 = .failsAt s0 m0 → isTransientErr m0 = true →
      beh 1 = .failsAt s1 m1 → isTransientErr m1 = true →
      beh 2 = .succeeds u →
      (process_recipe title beh).result = some u ∧
      (process_recipe title beh).writes = [u] ∧
      (process_recipe title beh).sleeps = [2, 4] ∧
      (process_recipe title beh).attemptsUsed = 3) ∧
    ((runBatch (pre ++ jA :: post)).take pre.length =
        (runBatch (pre ++ jB :: post)).take pre.length ∧
      (runBatch (pre ++ jA :: post)).drop (pre.length + 1) =
        (runBatch (pre ++ jB :: post)).drop (pre.length + 1)) := by
  refine ⟨?_, ?_, ?_, ?_, ?_, ?_, ?_⟩
  · simpa [process_recipe] using attemptLoop_attemptsUsed_le title beh MAX_RETRIES 0
  · have h := attemptLoop_sleeps_spec title beh MAX_RETRIES 0
    simpa [process_recipe] using h
  · intro s m h0 ht
    simp [process_recipe, MAX_RETRIES, attemptLoop, h0, ht]
  · intro hall
    obtain ⟨s0, m0, h0⟩ := hall 0 (by decide)
    obtain ⟨s1, m1, h1⟩ := hall 1 (by decide)
    obtain ⟨s2, m2, h2⟩ := hall 2 (by decide)
    cases t0 : isTransientErr m0
    · simp [process_recipe, MAX_RETRIES, attemptLoop, h0, t0]
    · cases t1 : isTransientErr m1
      · simp [process_recipe, MAX_RETRIES, attemptLoop, h0, h1, t0, t1]
      · simp [process_recipe, MAX_RETRIES, attemptLoop, h0, h1, h2, t0, t1]
  · intro s0 m0 s1 m1 h0 ht0 h1 ht1 h2
    simp [process_recipe, MAX_RETRIES, RETRY_DELAY, attemptLoop, h0, ht0, h1, ht1, h2]
  · unfold runBatch
    have htake : ∀ (j : Json × (Nat → AttemptBehavior)),
        ((pre ++ j :: post).map (fun p => process_recipe p.1 p.2)).take pre.length =
          pre.map (fun p => process_recipe p.1 p.2) := by
      intro j
      rw [List.map_append]
      rw [show pre.length = (pre.map (fun p => process_recipe p.1 p.2)).length from
        (List.length_map _ _).symm]
      exact List.take_left _ _
    rw [htake jA, htake jB]
  · unfold runBatch
    have hdrop : ∀ (j : Json × (Nat → AttemptBehavior)),
        ((pre ++ j :: post).map (fun p => process_recipe p.1 p.2)).drop (pre.length + 1) =
          post.map (fun p => process_recipe p.1 p.2) := by
      intro j
      rw [List.map_append, List.map_cons]
      rw [show (pre.map (fun p => process_recipe p.1 p.2)) ++
            process_recipe j.1 j.2 :: (post.map (fun p => process_recipe p.1 p.2)) =
          ((pre.map (fun p => process_recipe p.1 p.2)) ++ [process_recipe j.1 j.2]) ++
            (post.map (fun p => process_recipe p.1 p.2)) from by simp]
      rw [show pre.length + 1 =
          ((pre.map (fun p => process_recipe p.1 p.2)) ++ [process_recipe j.1 j.2]).length from
        by simp]
      exact List.drop_left _ _
    rw [hdrop jA, hdrop jB]

/-- Witness for C2: a job whose first two attempts raise the transient
signature and whose third succeeds, and a job failing non-transiently at
once. -/
theorem retry_policy_witness :
    (process_recipe (Json.str ['x'])
        (fun i => if i < 2 then .failsAt .generate TRANSIENT_SIG else .succeeds ['u'])).result =
      some ['u'] ∧
    (process_recipe (Json.str ['x'])
        (fun i => if i < 2 then .failsAt .generate TRANSIENT_SIG else .succeeds ['u'])).writes =
      [['u']] ∧
    (process_recipe (Json.str ['x'])
        (fun i => if i < 2 then .failsAt .generate TRANSIENT_SIG else .succeeds ['u'])).sleeps =
      [2, 2 * 2] ∧
    (process_recipe (Json.str ['x']) (fun _ => .failsAt .generate ['b'])).result = none := by
  refine ⟨?_, ?_, ?_, ?_⟩
  · exact ((retry_policy (Json.str ['x'])
      (fun i => if i < 2 then .failsAt .generate TRANSIENT_SIG else .succeeds ['u']) ['u']
      [] [] (Json.null, fun _ => .succeeds []) (Json.null, fun _ => .succeeds [])).2.2.2.2.1
      .generate TRANSIENT_SIG .generate TRANSIENT_SIG (by decide) (by decide) (by decide)
      (by decide) (by decide)).1
  · exact ((retry_policy (Json.str ['x'])
      (fun i => if i < 2 then .failsAt .generate TRANSIENT_SIG else .succeeds ['u']) ['u']
      [] [] (Json.null, fun _ => .succeeds []) (Json.null, fun _ => .succeeds [])).2.2.2.2.1
      .generate TRANSIENT_SIG .generate TRANSIENT_SIG (by decide) (by decide) (by decide)
      (by decide) (by decide)).2.1
  · exact ((retry_policy (Json.str ['x'])
      (fun i => if i < 2 then .failsAt .generate TRANSIENT_SIG else .succeeds ['u']) ['u']
      [] [] (Json.null, fun _ => .succeeds []) (Json.null, fun _ => .succeeds [])).2.2.2.2.1
      .generate TRANSIENT_SIG .generate TRANSIENT_SIG (by decide) (by decide) (by decide)
      (by decide) (by decide)).2.2.1
  · exact ((retry_policy (Json.str ['x']) (fun _ => .failsAt .generate ['b']) []
      [] [] (Json.null, fun _ => .succeeds []) (Json.null, fun _ => .succeeds [])).2.2.1
      .generate ['b'] (by decide) (by decide)).1

/-! ## C9: malformed generation payload is never a silent success -/

/-- C9: when the generation result payload is falsy, lacks the image
list, or has an empty image list, the check raises the
`Fal.ai returned no images.` error — it never yields a URL — and a job
all of whose attempts receive such payloads ends as a failure with no
success URL recorded and no write-back. -/
theorem generation_no_silent_success (p : FalPayload) (title : Json)
    (gens : Nat → FalPayload) (down : Nat → List Char → AttemptBehavior)
    (hmal : p = .empty ∨ p = .noImagesKey ∨ p = .withImages []) :
    getGeneratedUrl p = .error falErrMsg ∧
    (∀ u, getGeneratedUrl p ≠ .ok u) ∧
    ((∀ i, gens i = .empty ∨ gens i = .noImagesKey ∨ gens i = .withImages []) →
      (process_recipe title (fun i => attemptFromGen (gens i) (down i))).result = none ∧
      (process_recipe title (fun i => attemptFromGen (gens i) (down i))).writes = []) := by
  have herr : ∀ q : FalPayload,
      (q = .empty ∨ q = .noImagesKey ∨ q = .withImages []) →
      getGeneratedUrl q = .error falErrMsg := by
    intro q hq
    rcases hq with h | h | h <;> subst h <;> rfl
  refine ⟨herr p hmal, ?_, ?_⟩
  · intro u h
    rw [herr p hmal] at h
    exact Except.noConfusion h
  · intro hg
    have hbeh : ∀ i, attemptFromGen (gens i) (down i) = .failsAt .generate falErrMsg := by
      intro i
      unfold attemptFromGen
      rw [herr (gens i) (hg i)]
    have ht : isTransientErr falErrMsg = false := by decide
    constructor <;> simp [process_recipe, MAX_RETRIES, attemptLoop, hbeh, ht]

/-- Witness for C9 at the empty payload. -/
theorem generation_no_silent_success_witness :
    getGeneratedUrl FalPayload.empty = .error falErrMsg ∧
    (process_recipe Json.null
      (fun _ => attemptFromGen FalPayload.empty (fun _ => AttemptBehavior.succeeds []))).result =
      none :=
  ⟨(generation_no_silent_success FalPayload.empty Json.null (fun _ => FalPayload.empty)
      (fun _ _ => AttemptBehavior.succeeds []) (Or.inl rfl)).1,
   ((generation_no_silent_success FalPayload.empty Json.null (fun _ => FalPayload.empty)
      (fun _ _ => AttemptBehavior.succeeds []) (Or.inl rfl)).2.2 (fun _ => Or.inl rfl)).1⟩

/-! ## C5: permanent generation failure leaves the record untouched -/

/-- C5: a job whose generation call raises a non-transient error on
every attempt ends as a failure: no result URL, no write-back, no
upload, the failure reported in the job's output with the record's
title, and the record file content unchanged by the run's writes. -/
theorem nontransient_failure_reported (title : Json) (beh : Nat → AttemptBehavior) (d : Rec)
    (h : ∀ i, i < MAX_RETRIES →
      ∃ m, beh i = .failsAt .generate m ∧ isTransientErr m = false) :
    (process_recipe title beh).result = none ∧
    (process_recipe title beh).writes = [] ∧
    (process_recipe title beh).uploads = 0 ∧
    (∃ m, LogMsg.errorProcessing title 1 m ∈ (process_recipe title beh).log) ∧
    (process_recipe title beh).writes.foldl (fun f v => update_json_file v f) d = d := by
  obtain ⟨m0, h0, ht0⟩ := h 0 (by decide)
  refine ⟨?_, ?_, ?_, ⟨m0, ?_⟩, ?_⟩ <;>
    simp [process_recipe, MAX_RETRIES, attemptLoop, attemptUploads, h0, ht0]

/-- Witness for C5 at a concrete record and failing behaviour. -/
theorem nontransient_failure_reported_witness :
    (process_recipe (Json.str ['x']) (fun _ => .failsAt .generate ['b'])).result = none ∧
    (process_recipe (Json.str ['x']) (fun _ => .failsAt .generate ['b'])).writes.foldl
      (fun f v => update_json_file v f) [("a", Json.num 1)] = [("a", Json.num 1)] := by
  have h := nontransient_failure_reported (Json.str ['x'])
    (fun _ => .failsAt .generate ['b']) [("a", Json.num 1)]
    (fun i _ => ⟨['b'], rfl, by decide⟩)
  exact ⟨h.1, h.2.2.2.2⟩

/-! ## C7: write-back never empties the file, but streams in place -/

/-- C7 counterexample: `json.dump` streams the serialization into the
file opened `r+`, so the on-disk content is replaced while
serialization is still in progress, not only after it completes: with
the old content a 14-byte record and the new content its 42-byte
serialization with the URL added, a failure after 14 written bytes
leaves content that is neither the old record nor the new one. -/
theorem writeback_partial_replacement :
    14 < ("\x7b\"a\": \"12345\", \"generated_image_url\": \"u\"\x7d".toList).length ∧
    overwriteFrom "\x7b\"a\": \"12345\"\x7d".toList
        "\x7b\"a\": \"12345\", \"generated_image_url\": \"u\"\x7d".toList 14 ≠
      "\x7b\"a\": \"12345\"\x7d".toList ∧
    overwriteFrom "\x7b\"a\": \"12345\"\x7d".toList
        "\x7b\"a\": \"12345\", \"generated_image_url\": \"u\"\x7d".toList 14 ≠
      "\x7b\"a\": \"12345\", \"generated_image_url\": \"u\"\x7d".toList := by
  decide

/-- C7 amended: because the file is opened `r+` (no truncation on open)
and `f.truncate()` runs only after the dump, a failure after any number
of written bytes leaves a non-empty file — never an empty or
truncated-to-empty one — and a completed write-back leaves exactly the
new serialization; but the content is replaced incrementally while the
serialization streams, so a mid-write failure can leave mixed old and
new content. -/
theorem writeback_never_empty (old new : List Char) (k : Nat)
    (hold : old ≠ []) (hnew : new ≠ []) :
    overwriteFrom old new k ≠ [] ∧ updateFileRun old new = new := by
  constructor
  · cases k with
    | zero => simpa [overwriteFrom] using hold
    | succ n =>
      cases new with
      | nil => exact absurd rfl hnew
      | cons c rest => simp [overwriteFrom]
  · unfold updateFileRun overwriteFrom
    rw [List.take_length new]
    exact List.take_left new (old.drop new.length)

/-- Witness for C7 at concrete old and new contents. -/
theorem writeback_never_empty_witness :
    overwriteFrom ['a'] ['b', 'c'] 1 ≠ [] ∧ updateFileRun ['a'] ['b', 'c'] = ['b', 'c'] :=
  writeback_never_empty ['a'] ['b', 'c'] 1 (by decide) (by decide)

/-! ## C3: the semaphore bounds concurrent slot holders -/

/-- C3: in every state reachable by the cooperative scheduler from a
batch of `n` jobs, at most `CONCURRENT_LIMIT` jobs hold a slot
simultaneously, and every job is in exactly one of waiting / holding /
done — so each job acquires one slot before its attempts and has
released it exactly when it is terminal. -/
theorem sched_step_preserves (cap n : Nat) (s s' : SchedState)
    (hstep : SchedStep cap s s')
    (ihlen : s.holding.length ≤ cap)
    (ihcount : ∀ j, j < n → s.waiting.count j + s.holding.count j + s.done.count j = 1) :
    s'.holding.length ≤ cap ∧
    ∀ j, j < n → s'.waiting.count j + s'.holding.count j + s'.done.count j = 1 := by
  cases hstep with
  | acquire jq sq hj hcap =>
    constructor
    · simpa using hcap
    · intro j hjn
      have hc := ihcount j hjn
      by_cases hjj : j = jq
      · subst hjj
        have hw : 0 < s.waiting.count j := List.count_pos_iff.mpr hj
        simp only [List.count_erase_self, List.count_cons_self]
        omega
      · simp only [List.count_erase_of_ne hjj, List.count_cons_of_ne hjj]
        omega
  | release jq sq hj =>
    constructor
    · exact le_trans (List.Sublist.length_le (List.erase_sublist jq s.holding)) ihlen
    · intro j hjn
      have hc := ihcount j hjn
      by_cases hjj : j = jq
      · subst hjj
        have hw : 0 < s.holding.count j := List.count_pos_iff.mpr hj
        simp only [List.count_erase_self, List.count_cons_self]
        omega
      · simp only [List.count_erase_of_ne hjj, List.count_cons_of_ne hjj]
        omega

theorem sched_invariant (n : Nat) (s : SchedState)
    (h : SchedReach CONCURRENT_LIMIT (schedInit n) s) :
    s.holding.length ≤ CONCURRENT_LIMIT ∧
    ∀ j, j < n → s.waiting.count j + s.holding.count j + s.done.count j = 1 := by
  induction h with
  | refl =>
    constructor
    · simp [schedInit, CONCURRENT_LIMIT]
    · intro j hj
      simp [schedInit, List.count_eq_one_of_mem (List.nodup_range n) (List.mem_range.mpr hj),
        List.count_eq_zero_of_not_mem (by simp : j ∉ ([] : List Nat))]
  | step hreach hstep ih =>
    exact sched_step_preserves CONCURRENT_LIMIT n _ _ hstep ih.1 ih.2

/-- Witness for C3: the state after job 0 of a 2-job batch acquires its
slot is reachable, and the invariant holds there. -/
theorem sched_invariant_witness :
    (SchedState.mk ((List.range 2).erase 0) [0] []).holding.length ≤ CONCURRENT_LIMIT ∧
    ∀ j, j < 2 →
      (SchedState.mk ((List.range 2).erase 0) [0] []).waiting.count j +
        (SchedState.mk ((List.range 2).erase 0) [0] []).holding.count j +
        (SchedState.mk ((List.range 2).erase 0) [0] []).done.count j = 1 := by
  have hstep : SchedStep CONCURRENT_LIMIT (schedInit 2)
      ⟨(schedInit 2).waiting.erase 0, 0 :: (schedInit 2).holding, (schedInit 2).done⟩ :=
    SchedStep.acquire 0 (schedInit 2) (by simp [schedInit]) (by simp [schedInit, CONCURRENT_LIMIT])
  exact sched_invariant 2 _ (SchedReach.step SchedReach.refl hstep)

/-! ## C6: what the batch summary actually reports -/

theorem attemptLoop_failure_logged (title : Json) (beh : Nat → AttemptBehavior) :
    ∀ fuel a, fuel = MAX_RETRIES - a → a < MAX_RETRIES →
      (attemptLoop title beh fuel a).result = none →
      ∃ att m, LogMsg.errorProcessing title att m ∈ (attemptLoop title beh fuel a).log := by
  intro fuel
  induction fuel with
  | zero =>
    intro a hf ha _
    simp only [MAX_RETRIES] at hf ha
    omega
  | succ n ih =>
    intro a hf ha hres
    cases hb : beh a with
    | succeeds u =>
      simp [attemptLoop, hb] at hres
    | failsAt s m =>
      simp only [attemptLoop, hb] at hres ⊢
      by_cases hcond : (isTransientErr m && decide (a < MAX_RETRIES - 1)) = true
      · rw [if_pos hcond] at hres ⊢
        have ha1 : a < MAX_RETRIES - 1 :=
          of_decide_eq_true (Bool.and_eq_true_iff.mp hcond).2
        have hmr : MAX_RETRIES = 3 := rfl
        obtain ⟨att, m', hmem⟩ := ih (a + 1) (by omega) (by omega) hres
        exact ⟨att, m', List.mem_cons_of_mem _ hmem⟩
      · rw [if_neg hcond] at hres ⊢
        exact ⟨a + 1, m, List.mem_singleton.mpr rfl⟩

theorem process_failure_logged (title : Json) (beh : Nat → AttemptBehavior)
    (h : (process_recipe title beh).result = none) :
    ∃ att m, LogMsg.errorProcessing title att m ∈ (process_recipe title beh).log := by
  simp only [process_recipe] at h ⊢
  obtain ⟨att, m, hmem⟩ :=
    attemptLoop_failure_logged title beh MAX_RETRIES 0 (by simp [MAX_RETRIES]) (by decide) h
  exact ⟨att, m, List.mem_cons_of_mem _ hmem⟩

/-- C6 counterexample: a run over one eligible record whose job fails
non-transiently: one job fails, yet the driver's whole printed output —
pre-batch report plus post-batch summary — contains neither a failure
count nor any title listing, so the failed record's title is not listed
in the summary; the failure appears only in the job's own error line. -/
theorem summary_omits_failures :
    (mainRun (fun _ => ['u'])
        [some [("title", Json.str ['x']), ("image_url", Json.str ['h']),
               ("slug", Json.str ['x'])]]
        (fun _ _ => .failsAt .generate ['b'])).1 =
      [DriverMsg.foundTotal 1, DriverMsg.alreadyProcessed 0, DriverMsg.missingCount 0,
       DriverMsg.toProcessCount 1, DriverMsg.batchComplete, DriverMsg.successCount 0] ∧
    (mainRun (fun _ => ['u'])
        [some [("title", Json.str ['x']), ("image_url", Json.str ['h']),
               ("slug", Json.str ['x'])]]
        (fun _ _ => .failsAt .generate ['b'])).2.countP (fun t => t.result.isNone) = 1 ∧
    (mainRun (fun _ => ['u'])
        [some [("title", Json.str ['x']), ("image_url", Json.str ['h']),
               ("slug", Json.str ['x'])]]
        (fun _ _ => .failsAt .generate ['b'])).2 =
      [⟨none, [], 1, [], 0,
        [LogMsg.processing (Json.str ['x']),
         LogMsg.errorProcessing (Json.str ['x']) 1 ['b']]⟩] := by
  decide

/-- C6 amended: after a batch run the output reports the counts of total
files, already-completed, skipped-ineligible and newly-succeeded
records, and the summary lists the title of every skipped record; but
the count of failed records and failed titles are not part of the
summary — a failed job is reported only by its own error line, which
does carry the record's title. -/
theorem summary_amended (uuids : Nat → List Char) (files : List (Option Rec))
    (behs : Nat → Nat → AttemptBehavior) (title : Json) (beh : Nat → AttemptBehavior)
    (hne : (filterGo uuids 0 files).toProcess ≠ []) :
    DriverMsg.foundTotal files.length ∈ (mainRun uuids files behs).1 ∧
    DriverMsg.alreadyProcessed (filterGo uuids 0 files).alreadyCount ∈
      (mainRun uuids files behs).1 ∧
    DriverMsg.missingCount (filterGo uuids 0 files).missingTitles.length ∈
      (mainRun uuids files behs).1 ∧
    DriverMsg.successCount
        ((mainRun uuids files behs).2.countP (fun t => t.result.isSome)) ∈
      (mainRun uuids files behs).1 ∧
    (∀ t, t ∈ (filterGo uuids 0 files).missingTitles →
      DriverMsg.skippedTitle t ∈ (mainRun uuids files behs).1) ∧
    ((process_recipe title beh).result = none →
      ∃ att m, LogMsg.errorProcessing title att m ∈ (process_recipe title beh).log) := by
  have hemp : (filterGo uuids 0 files).toProcess.isEmpty = false := by
    cases hc : (filterGo uuids 0 files).toProcess with
    | nil => exact absurd hc hne
    | cons a l => simp [hc]
  refine ⟨?_, ?_, ?_, ?_, ?_, process_failure_logged title beh⟩ <;>
    simp only [mainRun, hemp, Bool.false_eq_true, if_false, preambleMsgs, summaryMsgs]
  · simp
  · simp
  · simp
  · simp
  · intro t ht
    have hmne : (filterGo uuids 0 files).missingTitles.isEmpty = false := by
      cases hc : (filterGo uuids 0 files).missingTitles with
      | nil => rw [hc] at ht; exact absurd ht (List.not_mem_nil t)
      | cons a l => simp [hc]
    simp only [hmne, Bool.false_eq_true, if_false]
    simp [List.mem_append, List.mem_cons, List.mem_map_of_mem _ ht]

/-- Witness for C6 at a concrete one-record run with a failing job. -/
theorem summary_amended_witness :
    DriverMsg.successCount
        ((mainRun (fun _ => ['u'])
            [some [("title", Json.str ['x']), ("image_url", Json.str ['h']),
                   ("slug", Json.str ['x'])]]
            (fun _ _ => .failsAt .fetch ['e'])).2.countP (fun t => t.result.isSome)) ∈
      (mainRun (fun _ => ['u'])
          [some [("title", Json.str ['x']), ("image_url", Json.str ['h']),
                 ("slug", Json.str ['x'])]]
          (fun _ _ => .failsAt .fetch ['e'])).1 ∧
    (∃ att m, LogMsg.errorProcessing (Json.str ['y']) att m ∈
      (process_recipe (Json.str ['y']) (fun _ => .failsAt .fetch ['e'])).log) := by
  have h := summary_amended (fun _ => ['u'])
    [some [("title", Json.str ['x']), ("image_url", Json.str ['h']),
           ("slug", Json.str ['x'])]]
    (fun _ _ => .failsAt .fetch ['e']) (Json.str ['y']) (fun _ => .failsAt .fetch ['e'])
    (by decide)
  exact ⟨h.2.2.2.1, h.2.2.2.2.2 (by decide)⟩

/-! ## C1: classification and job creation -/

theorem filterGo_toProcess_mem (uuids : Nat → List Char) :
    ∀ (files : List (Option Rec)) (off : Nat) (job : Rec),
      job ∈ (filterGo uuids off files).toProcess ↔
        ∃ k r', files.get? k = some (some r') ∧
          dispose (uuids (off + k)) r' = .eligible job := by
  intro files
  induction files with
  | nil =>
    intro off job
    simp [filterGo]
  | cons o rest ih =>
    intro off job
    cases o with
    | none =>
      rw [show filterGo uuids off (none :: rest) = filterGo uuids (off + 1) rest from rfl]
      rw [ih (off + 1) job]
      constructor
      · rintro ⟨k, r', hget, hdisp⟩
        refine ⟨k + 1, r', by simpa using hget, ?_⟩
        rw [show off + (k + 1) = off + 1 + k from by omega]
        exact hdisp
      · rintro ⟨k, r', hget, hdisp⟩
        cases k with
        | zero => simp at hget
        | succ kp =>
          refine ⟨kp, r', by simpa using hget, ?_⟩
          rw [show off + 1 + kp = off + (kp + 1) from by omega]
          exact hdisp
    | some r0 =>
      cases hd : dispose (uuids off) r0 with
      | completed =>
        have hP : (filterGo uuids off (some r0 :: rest)).toProcess =
            (filterGo uuids (off + 1) rest).toProcess := by
          simp [filterGo, hd]
        rw [hP, ih (off + 1) job]
        constructor
        · rintro ⟨k, r', hget, hdisp⟩
          refine ⟨k + 1, r', by simpa using hget, ?_⟩
          rw [show off + (k + 1) = off + 1 + k from by omega]
          exact hdisp
        · rintro ⟨k, r', hget, hdisp⟩
          cases k with
          | zero =>
            simp only [List.get?_cons_zero, Option.some.injEq] at hget
            subst hget
            rw [Nat.add_zero, hd] at hdisp
            exact absurd hdisp (by simp)
          | succ kp =>
            refine ⟨kp, r', by simpa using hget, ?_⟩
            rw [show off + 1 + kp = off + (kp + 1) from by omega]
            exact hdisp
      | eligible j0 =>
        have hP : (filterGo uuids off (some r0 :: rest)).toProcess =
            j0 :: (filterGo uuids (off + 1) rest).toProcess := by
          simp [filterGo, hd]
        rw [hP]
        constructor
        · intro hmem
          rcases List.mem_cons.mp hmem with hh | hh
          · subst hh
            exact ⟨0, r0, by simp, by rw [Nat.add_zero]; exact hd⟩
          · obtain ⟨k, r', hget, hdisp⟩ := (ih (off + 1) job).mp hh
            refine ⟨k + 1, r', by simpa using hget, ?_⟩
            rw [show off + (k + 1) = off + 1 + k from by omega]
            exact hdisp
        · rintro ⟨k, r', hget, hdisp⟩
          cases k with
          | zero =>
            simp only [List.get?_cons_zero, Option.some.injEq] at hget
            subst hget
            rw [Nat.add_zero, hd] at hdisp
            cases hdisp
            exact List.mem_cons_self _ _
          | succ kp =>
            refine List.mem_cons_of_mem _ ((ih (off + 1) job).mpr ?_)
            refine ⟨kp, r', by simpa using hget, ?_⟩
            rw [show off + 1 + kp = off + (kp + 1) from by omega]
            exact hdisp
      | skipped t =>
        have hP : (filterGo uuids off (some r0 :: rest)).toProcess =
            (filterGo uuids (off + 1) rest).toProcess := by
          simp [filterGo, hd]
        rw [hP, ih (off + 1) job]
        constructor
        · rintro ⟨k, r', hget, hdisp⟩
          refine ⟨k + 1, r', by simpa using hget, ?_⟩
          rw [show off + (k + 1) = off + 1 + k from by omega]
          exact hdisp
        · rintro ⟨k, r', hget, hdisp⟩
          cases k with
          | zero =>
            simp only [List.get?_cons_zero, Option.some.injEq] at hget
            subst hget
            rw [Nat.add_zero, hd] at hdisp
            exact absurd hdisp (by simp)
          | succ kp =>
            refine ⟨kp, r', by simpa using hget, ?_⟩
            rw [show off + 1 + kp = off + (kp + 1) from by omega]
            exact hdisp

/-- C1: the spec's classification agrees with the filter loop — a
record is Completed exactly when the loop counts it already processed,
Eligible exactly when the loop queues the backfilled record as a job,
Skipped exactly when the loop records its title as missing — every
record lands in one of the three classes, and a job enters the batch's
processing list exactly when some record file is parsed and disposed as
eligible to it, so Completed and Skipped records produce no job and
hence no external calls. -/
theorem classify_drives_jobs (uuid : List Char) (r : Rec) (uuids : Nat → List Char)
    (files : List (Option Rec)) (job : Rec) :
    (classify uuid r = .Completed ∨ classify uuid r = .Eligible ∨
      classify uuid r = .Skipped) ∧
    (classify uuid r = .Completed ↔ dispose uuid r = .completed) ∧
    (classify uuid r = .Eligible ↔ dispose uuid r = .eligible (backfillSlug uuid r)) ∧
    (classify uuid r = .Skipped ↔
      dispose uuid r = .skipped (titleOrDefault (backfillSlug uuid r))) ∧
    (job ∈ (filterGo uuids 0 files).toProcess ↔
      ∃ k r', files.get? k = some (some r') ∧ dispose (uuids k) r' = .eligible job) := by
  refine ⟨?_, ?_, ?_, ?_, ?_⟩
  · cases classify uuid r <;> simp
  · by_cases g : truthyField r "generated_image_url" = true <;>
      by_cases e : (truthyField (backfillSlug uuid r) "image_url" &&
        truthyField (backfillSlug uuid r) "slug") = true <;>
      simp [classify, dispose, g, e]
  · by_cases g : truthyField r "generated_image_url" = true <;>
      by_cases e : (truthyField (backfillSlug uuid r) "image_url" &&
        truthyField (backfillSlug uuid r) "slug") = true <;>
      simp [classify, dispose, g, e]
  · by_cases g : truthyField r "generated_image_url" = true <;>
      by_cases e : (truthyField (backfillSlug uuid r) "image_url" &&
        truthyField (backfillSlug uuid r) "slug") = true <;>
      simp [classify, dispose, g, e]
  · simpa using filterGo_toProcess_mem uuids files 0 job

/-! ## C10: the backfilled slug lives only in memory -/

/-- C10: the slug backfilled from the title exists only in the in-memory
record: the write-back re-reads the on-disk record and sets only
`generated_image_url`, so a record with no slug on disk still has none
after a successful run; the backfilled slug does determine the storage
upload path, and when the title normalizes to empty the path is the
fresh per-run token plus the extension, so distinct runs upload to
distinct paths. -/
theorem slug_backfill_in_memory_only (disk r : Rec) (u uuid u1 u2 t : List Char)
    (hslug : getKey disk "slug" = none)
    (hno : truthyField r "slug" = false)
    (htitle : getKey r "title" = some (Json.str t))
    (ht : t ≠ []) :
    getKey (update_json_file u disk) "slug" = none ∧
    getKey (update_json_file u disk) "generated_image_url" = some (Json.str u) ∧
    uploadPath (backfillSlug uuid r) = slugify uuid t ++ ".webp".toList ∧
    (slugifyCore t = [] → u1 ≠ u2 →
      uploadPath (backfillSlug u1 r) ≠ uploadPath (backfillSlug u2 r)) := by
  have hpath : ∀ uu : List Char,
      uploadPath (backfillSlug uu r) = slugify uu t ++ ".webp".toList := by
    intro uu
    unfold backfillSlug
    rw [hno]
    simp only [Bool.false_eq_true, if_false, htitle, if_neg ht]
    unfold uploadPath slugStr
    rw [getKey_setKey_self]
  refine ⟨?_, ?_, hpath uuid, ?_⟩
  · rw [show update_json_file u disk = setKey disk "generated_image_url" (Json.str u) from rfl,
      getKey_setKey_of_ne disk "generated_image_url" "slug" (Json.str u) (by decide)]
    exact hslug
  · exact getKey_setKey_self disk "generated_image_url" (Json.str u)
  · intro hcore hne heq
    rw [hpath u1, hpath u2] at heq
    simp only [slugify, hcore, if_pos rfl] at heq
    exact hne (List.append_cancel_right heq)

/-- Witness for C10 at a concrete disk record and a record whose title
normalizes to empty. -/
theorem slug_backfill_in_memory_only_witness :
    getKey (update_json_file ['U'] [("title", Json.str ['t'])]) "slug" = none ∧
    uploadPath (backfillSlug ['a'] [("title", Json.str [' ']),
        ("image_url", Json.str ['h'])]) ≠
      uploadPath (backfillSlug ['b'] [("title", Json.str [' ']),
        ("image_url", Json.str ['h'])]) := by
  have h := slug_backfill_in_memory_only [("title", Json.str ['t'])]
    [("title", Json.str [' ']), ("image_url", Json.str ['h'])]
    ['U'] ['u'] ['a'] ['b'] [' ']
    (by decide) (by decide) (by decide) (by decide)
  exact ⟨h.1, h.2.2.2 (by decide) (by decide)⟩

end RecipeGen
